import Mathlib

/-
Verification of the PanePilot hotkey visibility toggle (src/src/index.ts).

The program opens one webview at startup and wires two handlers:

  const wv = openWebview("test", 400, 400);
  let visible = false;
  registerHotkey(Modifiers.Alt, 0x41, () => {
    wv.setHtml(`... Hello World ${Math.random()} ...`);
    if (visible) return;
    wv.setVisible(true);
    visible = true;
    registerAltRelease(() => {
      wv.setVisible(false);
      visible = false;
    });
  });

Shallow embedding: every call the program makes into the native layer is
recorded in an append-only log of `Action`s.  The process state is the
`visible` flag, the number of armed one-shot release callbacks (`pending`),
and the log.  `Math.random()` is modelled as an input oracle
`rng : Nat → String` indexed by the number of `setHtml` calls made so far,
so the n-th content refresh embeds `rng n`.  The external events the
process reacts to are `Event.press` (global hotkey pressed) and
`Event.release` (modifier released); the release event fires every armed
one-shot callback exactly once and disarms it, which is the one-shot
contract of `registerAltRelease`.
-/

namespace PanePilot

/-- A call made by the program into the native layer, as recorded in the
event log.  `openWebview`/`teardown` manage the surface lifetime,
`setHtml`/`setVisible` act on the surface, `registerRelease` arms the
one-shot modifier-release callback.  (`teardown` models `handle.exit()`;
it never occurs in `src/src/index.ts` but is part of the surface API.) -/
inductive Action where
  | openWebview (title : String) (width height : Nat)
  | setHtml (markup : String)
  | setVisible (b : Bool)
  | registerRelease
  | teardown
  deriving DecidableEq, Repr

/-- The shape of an `Action`: the action with the HTML payload erased.
Two runs that differ only in the random values they draw produce logs
with the same shapes. -/
inductive AShape where
  | openWebview (title : String) (width height : Nat)
  | setHtml
  | setVisible (b : Bool)
  | registerRelease
  | teardown
  deriving DecidableEq, Repr

/-- Erase the HTML payload of an action. -/
def shape : Action → AShape
  | .openWebview t w h => .openWebview t w h
  | .setHtml _ => .setHtml
  | .setVisible b => .setVisible b
  | .registerRelease => .registerRelease
  | .teardown => .teardown

/-- The two external events the process reacts to. -/
inductive Event where
  | press
  | release
  deriving DecidableEq, Repr

/-- Process state: the toggle's `visible` flag, the number of armed
one-shot release callbacks, and the log of native calls made so far. -/
structure St where
  visible : Bool
  pending : Nat
  log : List Action
  deriving DecidableEq, Repr

/-- Count the actions of `l` whose shape satisfies `p`. -/
def countA (p : AShape → Bool) (l : List Action) : Nat :=
  ((l.map shape).filter p).length

def isShow : AShape → Bool
  | .setVisible true => true
  | _ => false

def isHide : AShape → Bool
  | .setVisible false => true
  | _ => false

def isReg : AShape → Bool
  | .registerRelease => true
  | _ => false

def isHtml : AShape → Bool
  | .setHtml => true
  | _ => false

def isOpen : AShape → Bool
  | .openWebview _ _ _ => true
  | _ => false

def isTeardown : AShape → Bool
  | .teardown => true
  | _ => false

/-- Number of `setVisible(true)` calls in the log. -/
def countShow (l : List Action) : Nat := countA isShow l

/-- Number of `setVisible(false)` calls in the log. -/
def countHide (l : List Action) : Nat := countA isHide l

/-- Number of `registerAltRelease` registrations in the log. -/
def countReg (l : List Action) : Nat := countA isReg l

/-- Number of `setHtml` calls in the log. -/
def countHtml (l : List Action) : Nat := countA isHtml l

/-- Number of `openWebview` calls in the log. -/
def countOpen (l : List Action) : Nat := countA isOpen l

/-- Number of `exit` (teardown) calls in the log. -/
def countTeardown (l : List Action) : Nat := countA isTeardown l

/-- The HTML template the press handler passes to `setHtml`, with the
rendering of `Math.random()` substituted for the interpolation. -/
def helloHtml (r : String) : String :=
  "\n\t\t<html>\n\t\t<head>\n\t\t</head>\n\t\t<body>\n\t\t<div>Hello World " ++
    r ++ "</div>\n\t\t</body>\n\t\t</html>\n\t\t"

/-- The hotkey press handler (the closure passed to `registerHotkey`):
`setHtml` with fresh random content, then `if (visible) return;`, else
`setVisible(true); visible = true; registerAltRelease(...)`. -/
def pressStep (rng : Nat → String) (s : St) : St :=
  let s1 : St := { s with
    log := s.log ++ [Action.setHtml (helloHtml (rng (countHtml s.log)))] }
  if s1.visible then s1
  else
    let s2 : St := { s1 with
      log := s1.log ++ [Action.setVisible true], visible := true }
    { s2 with
      log := s2.log ++ [Action.registerRelease]
      pending := s2.pending + 1 }

/-- The one-shot callback passed to `registerAltRelease`:
`setVisible(false); visible = false`. -/
def releaseCallback (s : St) : St :=
  { s with log := s.log ++ [Action.setVisible false], visible := false }

/-- Fire `n` armed one-shot callbacks in sequence. -/
def fireAll : Nat → St → St
  | 0, s => s
  | n + 1, s => fireAll n (releaseCallback s)

/-- The modifier-release event: every armed one-shot callback fires
exactly once and is disarmed. -/
def releaseStep (s : St) : St :=
  let s1 := fireAll s.pending s
  { s1 with pending := 0 }

/-- One event delivery. -/
def step (rng : Nat → String) : Event → St → St
  | .press => pressStep rng
  | .release => releaseStep

/-- Process start: `openWebview("test", 400, 400)`, `visible = false`,
no release callback armed. -/
def initSt : St :=
  { visible := false, pending := 0,
    log := [Action.openWebview "test" 400 400] }

/-- Deliver a list of events starting from state `s`. -/
def runFrom (rng : Nat → String) (s : St) (es : List Event) : St :=
  es.foldl (fun t e => step rng e t) s

/-- Deliver a list of events from process start. -/
def run (rng : Nat → String) (es : List Event) : St :=
  runFrom rng initSt es

/-- Deliver `n` consecutive hotkey presses. -/
def pressN (rng : Nat → String) : Nat → St → St
  | 0, s => s
  | n + 1, s => pressN rng n (pressStep rng s)

/-- `n` complete press/release cycles. -/
def cycles : Nat → List Event
  | 0 => []
  | n + 1 => Event.press :: Event.release :: cycles n

/-- An action a handler is allowed to emit: a call acting on the existing
surface or arming the release callback — never `openWebview` or `exit`. -/
def handlerAction : Action → Bool
  | .setHtml _ => true
  | .setVisible _ => true
  | .registerRelease => true
  | .openWebview _ _ _ => false
  | .teardown => false

/-- The process state extended with an arbitrary component `other`
standing for any process-wide state outside the toggle, the surface and
the release-callback registration; the handlers never mention it. -/
structure Proc (ρ : Type) where
  st : St
  other : ρ

/-- Event delivery on the extended process state: the handlers act on the
toggle/surface state only. -/
def stepProc {ρ : Type} (rng : Nat → String) (e : Event) (p : Proc ρ) :
    Proc ρ :=
  { st := step rng e p.st, other := p.other }

/-- A concrete random oracle used for witnesses and counterexamples. -/
def rng0 : Nat → String := fun n => toString n

/-- Value of a `setVisible` call, `none` for any other call: the sequence
of `setVisible` calls in a log is `log.filterMap visArg`. -/
def visArg : Action → Option Bool
  | .setVisible b => some b
  | _ => none

/-- `visArg` on shapes. -/
def visArgS : AShape → Option Bool
  | .setVisible b => some b
  | _ => none

/-- The per-state toggle invariant: exactly one release callback is armed
while the toggle is `Visible`, none while it is `Hidden`. -/
def Inv (s : St) : Prop := s.pending = (if s.visible then 1 else 0)

/-- The log-accounting invariant: shows and registrations coincide, and
every registration is either still armed or has produced exactly one
hide. -/
def Acc (s : St) : Prop :=
  countShow s.log = countReg s.log ∧
  countReg s.log = countHide s.log + s.pending ∧
  Inv s

/-- Two states that agree except possibly on HTML payloads. -/
def SameShape (s t : St) : Prop :=
  s.visible = t.visible ∧ s.pending = t.pending ∧
    s.log.map shape = t.log.map shape

section CountLemmas

lemma countA_nil (p : AShape → Bool) : countA p [] = 0 := rfl

lemma countA_append (p : AShape → Bool) (l m : List Action) :
    countA p (l ++ m) = countA p l + countA p m := by
  simp [countA, List.filter_append]

lemma countA_cons (p : AShape → Bool) (a : Action) (l : List Action) :
    countA p (a :: l) = (if p (shape a) then 1 else 0) + countA p l := by
  by_cases h : p (shape a) <;> simp [countA, List.filter_cons, h] <;> omega

lemma countA_replicate (p : AShape → Bool) (a : Action) (n : Nat) :
    countA p (List.replicate n a) = if p (shape a) then n else 0 := by
  induction n with
  | zero => simp [countA]
  | succ n ih =>
    rw [List.replicate_succ, countA_cons, ih]
    by_cases h : p (shape a) <;> simp [h] <;> omega

lemma countA_eq_zero (p : AShape → Bool) (l : List Action)
    (h : ∀ a ∈ l, p (shape a) = false) : countA p l = 0 := by
  induction l with
  | nil => rfl
  | cons a l ih =>
    rw [countA_cons, h a (List.mem_cons_self a l)]
    simp [ih fun b hb => h b (List.mem_cons_of_mem a hb)]

lemma countA_shape_eq (p : AShape → Bool) (l m : List Action)
    (h : l.map shape = m.map shape) : countA p l = countA p m := by
  simp [countA, h]

end CountLemmas

section StepLemmas

lemma pressStep_visible (rng : Nat → String) (s : St)
    (h : s.visible = true) :
    pressStep rng s =
      { s with log :=
          s.log ++ [Action.setHtml (helloHtml (rng (countHtml s.log)))] } := by
  simp [pressStep, h]

lemma pressStep_hidden (rng : Nat → String) (s : St)
    (h : s.visible = false) :
    pressStep rng s =
      { visible := true
        pending := s.pending + 1
        log := s.log ++
          [Action.setHtml (helloHtml (rng (countHtml s.log))),
           Action.setVisible true, Action.registerRelease] } := by
  simp [pressStep, h, List.append_assoc]

lemma fireAll_spec (n : Nat) (s : St) :
    (fireAll n s).log = s.log ++ List.replicate n (Action.setVisible false) ∧
    (fireAll n s).pending = s.pending ∧
    (fireAll n s).visible = (if n = 0 then s.visible else false) := by
  induction n generalizing s with
  | zero => simp [fireAll]
  | succ n ih =>
    obtain ⟨hl, hp, hv⟩ := ih (releaseCallback s)
    refine ⟨?_, ?_, ?_⟩
    · rw [show fireAll (n + 1) s = fireAll n (releaseCallback s) from rfl, hl]
      simp [releaseCallback, List.replicate_succ]
    · rw [show fireAll (n + 1) s = fireAll n (releaseCallback s) from rfl, hp]
      rfl
    · rw [show fireAll (n + 1) s = fireAll n (releaseCallback s) from rfl, hv]
      simp [releaseCallback]

lemma releaseStep_spec (s : St) :
    (releaseStep s).log =
      s.log ++ List.replicate s.pending (Action.setVisible false) ∧
    (releaseStep s).pending = 0 ∧
    (releaseStep s).visible = (if s.pending = 0 then s.visible else false) := by
  obtain ⟨hl, hp, hv⟩ := fireAll_spec s.pending s
  exact ⟨hl, rfl, hv⟩

lemma step_ext (rng : Nat → String) (e : Event) (s : St) :
    ∃ ext, (step rng e s).log = s.log ++ ext ∧
      ∀ a ∈ ext, handlerAction a = true := by
  cases e with
  | press =>
    cases hv : s.visible with
    | false =>
      refine ⟨_, by rw [step, pressStep_hidden rng s hv], ?_⟩
      intro a ha
      simp only [List.mem_cons, List.mem_singleton] at ha
      rcases ha with h | h | h | h
      · rw [h]; rfl
      · rw [h]; rfl
      · rw [h]; rfl
      · cases h
    | true =>
      refine ⟨_, by rw [step, pressStep_visible rng s hv], ?_⟩
      intro a ha
      simp only [List.mem_singleton] at ha
      rw [ha]; rfl
  | release =>
    refine ⟨_, (releaseStep_spec s).1, ?_⟩
    intro a ha
    rw [List.eq_of_mem_replicate ha]
    rfl

end StepLemmas

section SingletonCounts

lemma counts_htmlExt (x : String) :
    countShow [Action.setHtml x] = 0 ∧ countHide [Action.setHtml x] = 0 ∧
    countReg [Action.setHtml x] = 0 ∧ countHtml [Action.setHtml x] = 1 :=
  ⟨rfl, rfl, rfl, rfl⟩

lemma counts_showExt (x : String) :
    countShow [Action.setHtml x, Action.setVisible true,
      Action.registerRelease] = 1 ∧
    countHide [Action.setHtml x, Action.setVisible true,
      Action.registerRelease] = 0 ∧
    countReg [Action.setHtml x, Action.setVisible true,
      Action.registerRelease] = 1 ∧
    countHtml [Action.setHtml x, Action.setVisible true,
      Action.registerRelease] = 1 :=
  ⟨rfl, rfl, rfl, rfl⟩

lemma counts_hideRep (n : Nat) :
    countShow (List.replicate n (Action.setVisible false)) = 0 ∧
    countHide (List.replicate n (Action.setVisible false)) = n ∧
    countReg (List.replicate n (Action.setVisible false)) = 0 := by
  refine ⟨?_, ?_, ?_⟩ <;>
    simp [countShow, countHide, countReg, countA_replicate, shape, isShow,
      isHide, isReg]

end SingletonCounts

section InvariantLemmas

lemma inv_init : Inv initSt := by simp [Inv, initSt]

lemma inv_step (rng : Nat → String) (e : Event) (s : St) (h : Inv s) :
    Inv (step rng e s) := by
  cases e with
  | press =>
    cases hv : s.visible with
    | true =>
      rw [step, pressStep_visible rng s hv]
      unfold Inv at h ⊢
      simpa using h
    | false =>
      rw [step, pressStep_hidden rng s hv]
      unfold Inv at h ⊢
      rw [hv] at h
      simp at h
      simp [h]
  | release =>
    obtain ⟨hl, hp, hv⟩ := releaseStep_spec s
    unfold Inv at h ⊢
    rw [show step rng Event.release s = releaseStep s from rfl, hp, hv]
    by_cases h0 : s.pending = 0
    · rw [h0] at h
      cases hsv : s.visible
      · simp [h0, hsv]
      · rw [hsv] at h
        simp at h
    · simp [h0]

lemma acc_init : Acc initSt := ⟨rfl, rfl, inv_init⟩

lemma acc_step (rng : Nat → String) (e : Event) (s : St) (h : Acc s) :
    Acc (step rng e s) := by
  obtain ⟨h1, h2, h3⟩ := h
  refine ⟨?_, ?_, inv_step rng e s h3⟩ <;>
  · cases e with
    | press =>
      cases hv : s.visible with
      | true =>
        rw [step, pressStep_visible rng s hv]
        obtain ⟨c1, c2, c3, c4⟩ := counts_htmlExt
          (helloHtml (rng (countHtml s.log)))
        simp only [countShow, countHide, countReg, countA_append] at *
        omega
      | false =>
        rw [step, pressStep_hidden rng s hv]
        obtain ⟨c1, c2, c3, c4⟩ := counts_showExt
          (helloHtml (rng (countHtml s.log)))
        simp only [countShow, countHide, countReg, countA_append] at *
        omega
    | release =>
      obtain ⟨hl, hp, hv⟩ := releaseStep_spec s
      rw [show step rng Event.release s = releaseStep s from rfl]
      obtain ⟨c1, c2, c3⟩ := counts_hideRep s.pending
      simp only [hl, hp, countShow, countHide, countReg, countA_append] at *
      omega

lemma runFrom_cons (rng : Nat → String) (s : St) (e : Event)
    (es : List Event) :
    runFrom rng s (e :: es) = runFrom rng (step rng e s) es := rfl

lemma acc_runFrom (rng : Nat → String) (es : List Event) (s : St)
    (h : Acc s) : Acc (runFrom rng s es) := by
  induction es generalizing s with
  | nil => exact h
  | cons e es ih => exact ih (step rng e s) (acc_step rng e s h)

lemma acc_run (rng : Nat → String) (es : List Event) : Acc (run rng es) :=
  acc_runFrom rng es initSt acc_init

lemma pending_le_one (s : St) (h : Inv s) : s.pending ≤ 1 := by
  unfold Inv at h
  rw [h]
  cases s.visible <;> simp

end InvariantLemmas

section CycleLemmas

lemma cycle_reset (rng : Nat → String) (s : St) (hv : s.visible = false)
    (hp : s.pending = 0) :
    (releaseStep (pressStep rng s)).visible = false ∧
    (releaseStep (pressStep rng s)).pending = 0 := by
  obtain ⟨hl, hp2, hv2⟩ := releaseStep_spec (pressStep rng s)
  refine ⟨?_, hp2⟩
  rw [hv2, pressStep_hidden rng s hv]
  simp

lemma cycles_runFrom (rng : Nat → String) (n : Nat) :
    ∀ s : St, s.visible = false → s.pending = 0 →
      (runFrom rng s (cycles n)).visible = false ∧
      (runFrom rng s (cycles n)).pending = 0 := by
  induction n with
  | zero => exact fun s hv hp => ⟨hv, hp⟩
  | succ n ih =>
    intro s hv hp
    have h2 := cycle_reset rng s hv hp
    rw [show cycles (n + 1) = Event.press :: Event.release :: cycles n
        from rfl, runFrom_cons, runFrom_cons]
    exact ih _ h2.1 h2.2

end CycleLemmas

section ShapeLemmas

lemma sameShape_step (rng1 rng2 : Nat → String) (e : Event) (s t : St)
    (h : SameShape s t) : SameShape (step rng1 e s) (step rng2 e t) := by
  obtain ⟨hv, hp, hl⟩ := h
  cases e with
  | press =>
    have hc : countHtml s.log = countHtml t.log :=
      countA_shape_eq isHtml s.log t.log hl
    cases hvs : s.visible with
    | true =>
      have hvt : t.visible = true := by rw [← hv, hvs]
      rw [step, step, pressStep_visible rng1 s hvs,
        pressStep_visible rng2 t hvt]
      exact ⟨hv, hp, by simp [shape, hl]⟩
    | false =>
      have hvt : t.visible = false := by rw [← hv, hvs]
      rw [step, step, pressStep_hidden rng1 s hvs,
        pressStep_hidden rng2 t hvt]
      exact ⟨rfl, by rw [hp], by simp [shape, hl]⟩
  | release =>
    obtain ⟨hl1, hp1, hv1⟩ := releaseStep_spec s
    obtain ⟨hl2, hp2, hv2⟩ := releaseStep_spec t
    rw [show step rng1 Event.release s = releaseStep s from rfl,
      show step rng2 Event.release t = releaseStep t from rfl]
    refine ⟨?_, ?_, ?_⟩
    · rw [hv1, hv2, hp, hv]
    · rw [hp1, hp2]
    · rw [hl1, hl2, hp]
      simp [List.map_replicate, hl]

lemma sameShape_runFrom (rng1 rng2 : Nat → String) (es : List Event)
    (s t : St) (h : SameShape s t) :
    SameShape (runFrom rng1 s es) (runFrom rng2 t es) := by
  induction es generalizing s t with
  | nil => exact h
  | cons e es ih =>
    exact ih (step rng1 e s) (step rng2 e t)
      (sameShape_step rng1 rng2 e s t h)

lemma sameShape_run (rng1 rng2 : Nat → String) (es : List Event) :
    SameShape (run rng1 es) (run rng2 es) :=
  sameShape_runFrom rng1 rng2 es initSt initSt ⟨rfl, rfl, rfl⟩

lemma filterMap_visArg (l : List Action) :
    l.filterMap visArg = (l.map shape).filterMap visArgS := by
  induction l with
  | nil => rfl
  | cons a l ih => cases a <;> simp [visArg, visArgS, shape, ih]

end ShapeLemmas

section ExtensionLemmas

lemma handlerAction_not_lifecycle (a : Action)
    (h : handlerAction a = true) :
    isOpen (shape a) = false ∧ isTeardown (shape a) = false := by
  cases a <;> simp_all [handlerAction, shape, isOpen, isTeardown]

lemma runFrom_ext (rng : Nat → String) (es : List Event) (s : St) :
    ∃ ext, (runFrom rng s es).log = s.log ++ ext ∧
      ∀ a ∈ ext, handlerAction a = true := by
  induction es generalizing s with
  | nil => exact ⟨[], by simp [runFrom], by simp⟩
  | cons e es ih =>
    obtain ⟨ext1, he1, ha1⟩ := step_ext rng e s
    obtain ⟨ext2, he2, ha2⟩ := ih (step rng e s)
    refine ⟨ext1 ++ ext2, ?_, ?_⟩
    · rw [runFrom_cons, he2, he1, List.append_assoc]
    · intro a ha
      rcases List.mem_append.mp ha with h | h
      · exact ha1 a h
      · exact ha2 a h

end ExtensionLemmas

section ClaimHelpers

lemma pressStep_visible_counts (rng : Nat → String) (s : St)
    (h : s.visible = true) :
    (pressStep rng s).visible = true ∧
    countShow (pressStep rng s).log = countShow s.log ∧
    countReg (pressStep rng s).log = countReg s.log ∧
    countHide (pressStep rng s).log = countHide s.log ∧
    (pressStep rng s).pending = s.pending := by
  rw [pressStep_visible rng s h]
  obtain ⟨c1, c2, c3, c4⟩ :=
    counts_htmlExt (helloHtml (rng (countHtml s.log)))
  refine ⟨h, ?_, ?_, ?_, rfl⟩ <;>
    simp only [countShow, countReg, countHide, countA_append] at * <;>
    omega

end ClaimHelpers

/-- Claim C1: for every sequence of hotkey presses delivered while the
toggle is `Visible`, the press handler performs no show: `setVisible(true)`
is not invoked again, no further release handler is registered via
`registerAltRelease`, no hide is emitted either (so the `visible` flag is
never set to `true` twice without an intervening `false`), and the toggle
stays `Visible` with its armed callback count untouched. -/
theorem press_while_visible_no_show (rng : Nat → String) (n : Nat) (s : St)
    (h : s.visible = true) :
    (pressN rng n s).visible = true ∧
    countShow (pressN rng n s).log = countShow s.log ∧
    countReg (pressN rng n s).log = countReg s.log ∧
    countHide (pressN rng n s).log = countHide s.log ∧
    (pressN rng n s).pending = s.pending := by
  induction n generalizing s with
  | zero => exact ⟨h, rfl, rfl, rfl, rfl⟩
  | succ n ih =>
    obtain ⟨b1, b2, b3, b4, b5⟩ := pressStep_visible_counts rng s h
    obtain ⟨a1, a2, a3, a4, a5⟩ := ih (pressStep rng s) b1
    rw [show pressN rng (n + 1) s = pressN rng n (pressStep rng s)
        from rfl]
    exact ⟨a1, by rw [a2, b2], by rw [a3, b3], by rw [a4, b4],
      by rw [a5, b5]⟩

/-- Claim C1 witness: after one press from startup the toggle is
`Visible`, and two further presses perform no show. -/
theorem press_while_visible_no_show_witness :
    (run rng0 [Event.press]).visible = true ∧
    ((pressN rng0 2 (run rng0 [Event.press])).visible = true ∧
      countShow (pressN rng0 2 (run rng0 [Event.press])).log =
        countShow (run rng0 [Event.press]).log ∧
      countReg (pressN rng0 2 (run rng0 [Event.press])).log =
        countReg (run rng0 [Event.press]).log ∧
      countHide (pressN rng0 2 (run rng0 [Event.press])).log =
        countHide (run rng0 [Event.press]).log ∧
      (pressN rng0 2 (run rng0 [Event.press])).pending =
        (run rng0 [Event.press]).pending) :=
  ⟨rfl, press_while_visible_no_show rng0 2 (run rng0 [Event.press]) rfl⟩

/-- Claim C2 counterexample: the claim says a second press while `Visible`
makes no additional call of any kind to the popup surface, but the press
handler runs `setHtml` before the `visible` guard, so the second press
does issue one more surface call. -/
theorem second_press_not_silent :
    (run rng0 [Event.press, Event.press]).log =
      (run rng0 [Event.press]).log ++
        [Action.setHtml (helloHtml (rng0 1))] ∧
    (run rng0 [Event.press, Event.press]).log ≠
      (run rng0 [Event.press]).log :=
  ⟨rfl, by decide⟩

/-- Claim C2 (amended): starting in `Hidden`, one press makes the toggle
`Visible` with `setVisible(true)` called once and one release handler
registered; a second press makes no additional `setVisible` call and
registers no further handler, though it does refresh the content with one
more `setHtml` call; a release then returns the toggle to `Hidden` with
`setVisible(false)` called once. -/
theorem press_press_release_scenario (rng : Nat → String) :
    ((run rng [Event.press]).visible = true ∧
      countShow (run rng [Event.press]).log = 1 ∧
      countReg (run rng [Event.press]).log = 1 ∧
      countHide (run rng [Event.press]).log = 0) ∧
    ((run rng [Event.press, Event.press]).visible = true ∧
      countShow (run rng [Event.press, Event.press]).log = 1 ∧
      countReg (run rng [Event.press, Event.press]).log = 1 ∧
      countHide (run rng [Event.press, Event.press]).log = 0 ∧
      countHtml (run rng [Event.press, Event.press]).log =
        countHtml (run rng [Event.press]).log + 1) ∧
    ((run rng [Event.press, Event.press, Event.release]).visible = false ∧
      countShow (run rng [Event.press, Event.press, Event.release]).log
        = 1 ∧
      countReg (run rng [Event.press, Event.press, Event.release]).log
        = 1 ∧
      countHide (run rng [Event.press, Event.press, Event.release]).log
        = 1) :=
  ⟨⟨rfl, rfl, rfl, rfl⟩, ⟨rfl, rfl, rfl, rfl, rfl⟩, ⟨rfl, rfl, rfl, rfl⟩⟩

/-- Claim C3: a press delivered while the toggle is `Hidden` instructs the
surface to become visible via `setVisible(true)`, sets the state to
`Visible`, and registers exactly one one-shot release handler. -/
theorem press_while_hidden_shows_once (rng : Nat → String) (s : St)
    (h : s.visible = false) :
    pressStep rng s =
      { visible := true
        pending := s.pending + 1
        log := s.log ++
          [Action.setHtml (helloHtml (rng (countHtml s.log))),
           Action.setVisible true, Action.registerRelease] } ∧
    countReg (pressStep rng s).log = countReg s.log + 1 ∧
    countShow (pressStep rng s).log = countShow s.log + 1 := by
  refine ⟨pressStep_hidden rng s h, ?_, ?_⟩ <;>
    rw [pressStep_hidden rng s h] <;>
    obtain ⟨c1, c2, c3, c4⟩ :=
      counts_showExt (helloHtml (rng (countHtml s.log))) <;>
    simp only [countShow, countReg, countA_append] at * <;>
    omega

/-- Claim C3 witness: the press handler acting on the startup state. -/
theorem press_while_hidden_shows_once_witness :
    initSt.visible = false ∧
    (pressStep rng0 initSt =
      { visible := true
        pending := initSt.pending + 1
        log := initSt.log ++
          [Action.setHtml (helloHtml (rng0 (countHtml initSt.log))),
           Action.setVisible true, Action.registerRelease] } ∧
      countReg (pressStep rng0 initSt).log = countReg initSt.log + 1 ∧
      countShow (pressStep rng0 initSt).log = countShow initSt.log + 1) :=
  ⟨rfl, press_while_hidden_shows_once rng0 initSt rfl⟩

/-- Claim C4: when the one-shot release callback armed by a show
transition fires (a release event in a state with exactly one armed
callback), the surface is hidden by exactly one `setVisible(false)` call
and the toggle returns to `Hidden`. -/
theorem release_fires_hides_once (s : St) (hp : s.pending = 1) :
    releaseStep s =
      { visible := false
        pending := 0
        log := s.log ++ [Action.setVisible false] } := by
  simp only [releaseStep, hp]
  rfl

/-- Claim C4 witness: the release event after one press from startup. -/
theorem release_fires_hides_once_witness :
    (run rng0 [Event.press]).pending = 1 ∧
    releaseStep (run rng0 [Event.press]) =
      { visible := false
        pending := 0
        log := (run rng0 [Event.press]).log ++
          [Action.setVisible false] } :=
  ⟨rfl, release_fires_hides_once (run rng0 [Event.press]) rfl⟩

/-- Claim C5: any finite number of complete press/release cycles from
process start leaves `visible` equal to `false` (with no armed callback
left over), and at every point during those cycles at most one release
handler is armed. -/
theorem cycles_return_hidden_bounded_pending (rng : Nat → String)
    (n : Nat) :
    (run rng (cycles n)).visible = false ∧
    (run rng (cycles n)).pending = 0 ∧
    ∀ k : Nat, (run rng ((cycles n).take k)).pending ≤ 1 := by
  obtain ⟨hv, hp⟩ := cycles_runFrom rng n initSt rfl rfl
  exact ⟨hv, hp,
    fun k => pending_le_one _ (acc_run rng ((cycles n).take k)).2.2⟩

/-- Claim C6: on any event delivery the handlers leave every piece of
process-wide state other than the toggle/surface state unchanged, and the
only native calls they emit act on the existing surface or arm the release
callback. -/
theorem handlers_touch_only_toggle_state (ρ : Type) (rng : Nat → String)
    (e : Event) (p : Proc ρ) :
    (stepProc rng e p).other = p.other ∧
    ∃ ext, (stepProc rng e p).st.log = p.st.log ++ ext ∧
      ∀ a ∈ ext, handlerAction a = true :=
  ⟨rfl, step_ext rng e p.st⟩

/-- Claim C7: the webview is opened exactly once, at process start before
any event is handled (the `openWebview` call heads every reachable log),
and no handler ever opens another webview or tears the surface down. -/
theorem webview_opened_once_never_torn_down (rng : Nat → String)
    (es : List Event) :
    countOpen (run rng es).log = 1 ∧
    (run rng es).log.head? = some (Action.openWebview "test" 400 400) ∧
    countTeardown (run rng es).log = 0 := by
  obtain ⟨ext, he, ha⟩ := runFrom_ext rng es initSt
  have hopen : countA isOpen ext = 0 :=
    countA_eq_zero isOpen ext
      (fun a hmem => (handlerAction_not_lifecycle a (ha a hmem)).1)
  have htd : countA isTeardown ext = 0 :=
    countA_eq_zero isTeardown ext
      (fun a hmem => (handlerAction_not_lifecycle a (ha a hmem)).2)
  refine ⟨?_, ?_, ?_⟩
  · show countA isOpen (runFrom rng initSt es).log = 1
    rw [he, countA_append, hopen]
    rfl
  · show (runFrom rng initSt es).log.head? = _
    rw [he]
    rfl
  · show countA isTeardown (runFrom rng initSt es).log = 0
    rw [he, countA_append, htd]
    rfl

/-- Claim C8: under the one-shot contract of `registerAltRelease`, at
every point of every event sequence the number of registrations equals
the number of shows, every registration has produced at most one firing
(`countHide ≤ countReg`, with the difference exactly the armed callback),
and at most one release handler is armed at a time (registration while
one is armed is suppressed by the `Visible` guard). -/
theorem release_handler_at_most_once_per_show (rng : Nat → String)
    (es : List Event) (k : Nat) :
    countShow (run rng (es.take k)).log =
      countReg (run rng (es.take k)).log ∧
    countReg (run rng (es.take k)).log =
      countHide (run rng (es.take k)).log +
        (run rng (es.take k)).pending ∧
    (run rng (es.take k)).pending ≤ 1 := by
  obtain ⟨h1, h2, h3⟩ := acc_run rng (es.take k)
  exact ⟨h1, h2, pending_le_one _ h3⟩

/-- Claim C9: every press, also one delivered while the toggle is already
`Visible`, issues exactly one `setHtml` content update, because the
content refresh precedes the `visible` guard. -/
theorem every_press_sets_html_once (rng : Nat → String) (s : St) :
    countHtml (pressStep rng s).log = countHtml s.log + 1 := by
  cases hv : s.visible with
  | true =>
    rw [pressStep_visible rng s hv]
    obtain ⟨c1, c2, c3, c4⟩ :=
      counts_htmlExt (helloHtml (rng (countHtml s.log)))
    simp only [countHtml, countA_append] at *
    omega
  | false =>
    rw [pressStep_hidden rng s hv]
    obtain ⟨c1, c2, c3, c4⟩ :=
      counts_showExt (helloHtml (rng (countHtml s.log)))
    simp only [countHtml, countA_append] at *
    omega

/-- Claim C10: two runs driven by the same event sequence but different
random oracles make the same native calls up to HTML payloads — in
particular the same `setVisible` calls with the same arguments in the same
order — and agree on the `visible` flag after every event. -/
theorem runs_differ_only_in_html (rng1 rng2 : Nat → String)
    (es : List Event) :
    (run rng1 es).log.map shape = (run rng2 es).log.map shape ∧
    (run rng1 es).log.filterMap visArg =
      (run rng2 es).log.filterMap visArg ∧
    ∀ k : Nat, (run rng1 (es.take k)).visible =
      (run rng2 (es.take k)).visible := by
  obtain ⟨hv, hp, hl⟩ := sameShape_run rng1 rng2 es
  refine ⟨hl, ?_, fun k => (sameShape_run rng1 rng2 (es.take k)).1⟩
  rw [filterMap_visArg, filterMap_visArg, hl]
end PanePilot
